import Mathlib

/-!
# Verification of the KillPhilosophy deep-search engine

A shallow embedding of `src/deepsearch-api.js` (class `DeepSearchAPI`):
the demo relevance engine (`demoSearch`), the stateful entry point
(`executeSearch`, with its query cache and in-progress flag) and the
graph projection (`convertToNetworkData`), together with theorems about
the specified behaviour.

Modelling conventions:
* A JavaScript value that may be `undefined`/`null` is an `Option`.
* A thrown exception is `Except.error`; the error string stands for the
  JS error message (a `TypeError` from dereferencing `undefined` is
  modelled by a fixed string).
* A call on the stateful wrapper has three observable outcomes
  (`CallOutcome`): it returns a value, it throws to the caller, or it
  hangs because an exception inside a timer callback leaves the awaited
  promise forever unsettled; a hang carries the permanent state of the
  suspended call.
* JS objects used as string-keyed dictionaries (the search cache, the
  node `Map`) are association lists in insertion order, which matches
  the enumeration order of non-integer string keys in JS.
* `Array.prototype.sort` (stable since ES2019) with comparator
  `(a, b) => b.k - a.k` is `List.insertionSort` with the relation
  `a ≼ b := b.k ≤ a.k` — a stable descending sort, and the stable sorted
  permutation of a list is unique, so this is the sort's exact output.
* Primitive string helpers (`toLowerCase`, `split`, `trim`) are
  re-implemented by structural recursion on the character list so that
  every definition evaluates inside the kernel.
* The ambient clock (`new Date().toISOString()`) is an explicit `now`
  argument threaded to where the source reads the clock.
-/

namespace KP

/-- `sub` occurs as a contiguous run inside `s` (JS `String.prototype.includes`
on the underlying character lists). -/
def isSubstrList (sub : List Char) : List Char → Bool
  | [] => sub.isEmpty
  | c :: t => sub.isPrefixOf (c :: t) || isSubstrList sub t

/-- JS `s.includes(sub)`. -/
def strIncludes (s sub : String) : Bool :=
  isSubstrList sub.toList s.toList

/-- JS `String.prototype.toLowerCase` on the character list (ASCII case
mapping suffices for this engine's data). -/
def strToLower (s : String) : String :=
  String.mk (s.toList.map Char.toLower)

/-- Split a character list at every separator character (the separators are
dropped; empty fragments are kept, as with repeated separators). -/
def splitChars (p : Char → Bool) : List Char → List (List Char)
  | [] => [[]]
  | c :: rest =>
    match splitChars p rest with
    | [] => [[]]
    | g :: gs => if p c then [] :: g :: gs else (c :: g) :: gs

/-- JS `s.split(/\s+/)` up to empty fragments: split at every whitespace
character.  (The regex collapses separator runs while this keeps empty
fragments between them, but all empty fragments have length `0 ≤ 3` and are
removed by the length filter of the tokenizer, so the two agree there.) -/
def strSplitWs (s : String) : List String :=
  (splitChars Char.isWhitespace s.toList).map String.mk

/-- JS `String.prototype.trim`: drop whitespace from both ends. -/
def strTrim (s : String) : String :=
  String.mk (((s.toList.dropWhile Char.isWhitespace).reverse.dropWhile
    Char.isWhitespace).reverse)

/-- JS `\w` character class: `[A-Za-z0-9_]`. -/
def isWordChar (c : Char) : Bool :=
  c.isAlphanum || c == '_'

/-- `word.replace(/[^\w]/g, '')` — drop every non-word character
(`deepsearch-api.js:171`). -/
def stripNonWord (w : String) : String :=
  String.mk (w.toList.filter isWordChar)

/-- Tokenization of the query (`deepsearch-api.js:168-171`):
lower-case, split on whitespace, keep tokens of length `> 3`, then strip
non-word characters from the survivors. -/
def keywordsOf (query : String) : List String :=
  ((strSplitWs (strToLower query)).filter (fun w => w.length > 3)).map stripNonWord

/-- A work (`academic.papers[i]`): only the title is read by the engine. -/
structure Paper where
  title : String
deriving DecidableEq

/-- An occurrence (`academic.events[i]`): only the title is read by the engine. -/
structure Event where
  title : String
deriving DecidableEq

/-- An entity record as consumed by the engine.  Every field the source
dereferences behind a truthiness guard (or not at all) is an `Option`;
`taxonomies` is the category → tag-values mapping in insertion order. -/
structure Academic where
  name : Option String
  bio : Option String := none
  taxonomies : Option (List (String × List String)) := none
  papers : Option (List Paper) := none
  events : Option (List Event) := none
  connections : Option (List String) := none
deriving DecidableEq

/-- The relevance score of one academic (`deepsearch-api.js:180-227`),
given the extracted keywords and the (already dereferenced) name.
Each `forEach` accumulation is a `foldl` over the same data in the same
order; the `if (academic.bio)` guard is JS truthiness, so a missing *or
empty* bio contributes nothing. -/
def scoreAcademic (keywords : List String) (name : String) (a : Academic) : Nat :=
  let score : Nat := 0
  let nameLower := strToLower name
  let nameMatch := keywords.any (fun k => strIncludes nameLower k)
  let score := if nameMatch then score + 5 else score
  let score :=
    match a.bio with
    | some bio =>
      if bio = "" then score
      else
        let bioLower := strToLower bio
        keywords.foldl (fun s k => if strIncludes bioLower k then s + 2 else s) score
    | none => score
  let score :=
    match a.taxonomies with
    | some taxs =>
      taxs.foldl (fun s cv =>
        cv.2.foldl (fun s v =>
          let valueLower := strToLower v
          keywords.foldl (fun s k => if strIncludes valueLower k then s + 3 else s) s) s) score
    | none => score
  let score :=
    match a.papers with
    | some papers =>
      papers.foldl (fun s p =>
        let titleLower := strToLower p.title
        keywords.foldl (fun s k => if strIncludes titleLower k then s + 1 else s) s) score
    | none => score
  let score :=
    match a.events with
    | some events =>
      events.foldl (fun s e =>
        let titleLower := strToLower e.title
        keywords.foldl (fun s k => if strIncludes titleLower k then s + 1 else s) s) score
    | none => score
  score

/-- A scored corpus entry (`{ academic, score }` plus the dereferenced name). -/
structure Scored where
  name : String
  academic : Academic
  score : Nat
deriving DecidableEq

/-- Scoring one academic.  `academic.name.toLowerCase()`
(`deepsearch-api.js:183`) throws a `TypeError` when `name` is absent; the
whole batch aborts, which `Except.error` records. -/
def scoreEntry (keywords : List String) (a : Academic) : Except String Scored :=
  match a.name with
  | none => .error "TypeError: cannot read name of undefined"
  | some n => .ok ⟨n, a, scoreAcademic keywords n a⟩

/-- The `academics.forEach` scoring pass (`deepsearch-api.js:179-236`),
in corpus order; the first record without a name aborts the pass. -/
def scoreAll (keywords : List String) : List Academic → Except String (List Scored)
  | [] => .ok []
  | a :: rest =>
    match scoreEntry keywords a with
    | .error e => .error e
    | .ok s =>
      match scoreAll keywords rest with
      | .error e => .error e
      | .ok l => .ok (s :: l)

/-- The sort relation of `matches.sort((a, b) => b.score - a.score)`:
`a` may stay before `b` iff `b.score ≤ a.score` (descending; at a tie both
directions hold and the stable sort keeps encounter order). -/
def scoreDescR (a b : Scored) : Prop :=
  b.score ≤ a.score

instance : DecidableRel scoreDescR :=
  fun a b => inferInstanceAs (Decidable (b.score ≤ a.score))

instance : IsTotal Scored scoreDescR :=
  ⟨fun a b => Nat.le_total b.score a.score⟩

instance : IsTrans Scored scoreDescR :=
  ⟨fun _ _ _ h1 h2 => Nat.le_trans h2 h1⟩

/-- All upper-triangular pairs `(l[i], l[j])`, `i < j`, in the generation
order of the nested loops at `deepsearch-api.js:244-245`. -/
def pairsUpper {α : Type} : List α → List (α × α)
  | [] => []
  | x :: xs => xs.map (fun y => (x, y)) ++ pairsUpper xs

/-- `academicA.connections?.includes(academicB.name) ||
academicB.connections?.includes(academicA.name)` (`deepsearch-api.js:250-252`);
optional chaining on a missing list is falsy. -/
def directlyConnected (A B : Scored) : Bool :=
  (A.academic.connections.getD []).contains B.name ||
    (B.academic.connections.getD []).contains A.name

/-- Shared-tag evidence (`deepsearch-api.js:255-272`): for each category of
`A` (in insertion order) whose value list also exists on `B`, the values of
`A` also contained in `B`'s values; recorded only when non-empty. -/
def sharedTaxonomies (a b : Academic) : List (String × List String) :=
  match a.taxonomies, b.taxonomies with
  | some taxA, some taxB =>
    taxA.filterMap (fun cv =>
      match taxB.lookup cv.1 with
      | some valuesB =>
        let shared := cv.2.filter (fun v => valuesB.contains v)
        if shared.isEmpty then none else some (cv.1, shared)
      | none => none)
  | _, _ => []

/-- An inferred relation between two academics. -/
structure Connection where
  academicA : String
  academicB : String
  isDirectlyConnected : Bool
  sharedTaxonomies : List (String × List String)
  strength : Nat
deriving DecidableEq

/-- The body of the pair loop (`deepsearch-api.js:246-282`): a connection is
pushed iff the pair is directly connected or has shared-tag evidence, with
`strength = (direct ? 5 : 0) + 2 * sharedTaxonomies.length`. -/
def mkConnection (A B : Scored) : Option Connection :=
  let direct := directlyConnected A B
  let shared := sharedTaxonomies A.academic B.academic
  if direct || !shared.isEmpty then
    some ⟨A.name, B.name, direct, shared, (if direct then 5 else 0) + shared.length * 2⟩
  else
    none

/-- Connections generated over the upper-triangular pairs of the top
matches (`deepsearch-api.js:242-284`). -/
def connectionsOf (tops : List Scored) : List Connection :=
  (pairsUpper tops).filterMap (fun p => mkConnection p.1 p.2)

/-- The sort relation of `connections.sort((a, b) => b.strength - a.strength)`. -/
def strengthDescR (a b : Connection) : Prop :=
  b.strength ≤ a.strength

instance : DecidableRel strengthDescR :=
  fun a b => inferInstanceAs (Decidable (b.strength ≤ a.strength))

instance : IsTotal Connection strengthDescR :=
  ⟨fun a b => Nat.le_total b.strength a.strength⟩

instance : IsTrans Connection strengthDescR :=
  ⟨fun _ _ _ h1 h2 => Nat.le_trans h2 h1⟩

/-- One entry of the returned `matches` array (`deepsearch-api.js:290-294`). -/
structure MatchOut where
  name : String
  score : Nat
  relevance : String
deriving DecidableEq

/-- `(score / maxScore * 100).toFixed(1) + '%'` (`deepsearch-api.js:293`),
modelled by rational rounding to one decimal place (the engine only ever
formats this string; no behaviour depends on its float bit pattern).
Unreachable division by zero yields `"0.0%"`. -/
def relevanceString (score maxScore : Nat) : String :=
  let tenths := (score * 1000 + maxScore / 2) / maxScore
  toString (tenths / 10) ++ "." ++ toString (tenths % 10) ++ "%"

/-- The search result object (`deepsearch-api.js:287-298`).  `matches_`
models the source's `matches` field (`matches` is reserved in Lean). -/
structure SearchResults where
  query : String
  timestamp : String
  matches_ : List MatchOut
  connections : List Connection
  analysis : String
deriving DecidableEq

/-- `matches[0]?.academic.name || 'none'` (`deepsearch-api.js:297`)
applied to the sorted match list: the empty string is falsy. -/
def topName (sorted : List Scored) : String :=
  match sorted.head? with
  | some m => if m.name = "" then "none" else m.name
  | none => "none"

/-- Assembly of the response object (`deepsearch-api.js:238-298`) from the
scored corpus: stable descending sort, top-5 pairwise connections, top-10
matches with relevance percentages, connections sorted by strength, and the
analysis summary string.  `timestamp` is the clock reading `now`. -/
def buildResults (query now : String) (scored : List Scored) : SearchResults :=
  let matchList := scored.filter (fun m => 0 < m.score)
  let sorted := matchList.insertionSort scoreDescR
  let connections := connectionsOf (sorted.take 5)
  let maxScore := (sorted.map (fun m => m.score)).foldl Nat.max 0
  { query := query
    timestamp := now
    matches_ := (sorted.take 10).map (fun m => ⟨m.name, m.score, relevanceString m.score maxScore⟩)
    connections := connections.insertionSort strengthDescR
    analysis :=
      "Found " ++ toString matchList.length ++ " academics and " ++
        toString connections.length ++ " connections related to \"" ++ query ++
        "\".\nThe most relevant academic is " ++ topName sorted ++ "." }

/-- `demoSearch(query)` (`deepsearch-api.js:155-303`): score the corpus
(aborting on a record without a name) and assemble the response.  `now` is
the clock reading used for the `timestamp` field.  `Except.error` records
the exception thrown inside the `setTimeout` callback; since the promise
executor binds only `resolve`, on that path the promise returned by the
source never settles (`executeSearch` consumes this as a hang). -/
def demoSearch (query : String) (academics : List Academic) (now : String) :
    Except String SearchResults :=
  match scoreAll (keywordsOf query) academics with
  | .error e => .error e
  | .ok scored => .ok (buildResults query now scored)

/-! ## The stateful wrapper `executeSearch` and its cache -/

/-- The mutable fields of the `DeepSearchAPI` instance that `executeSearch`
reads or writes (`deepsearch-api.js:7-14`).  The cache is the JS object
`searchCache` as an association list in key-insertion order. -/
structure APIState where
  isInitialized : Bool
  searchDepth : String
  searchCache : List (String × SearchResults)
  searchInProgress : Bool
deriving DecidableEq

/-- JS object property assignment `obj[k] = v`: overwrite in place if the
key exists, otherwise append (keys keep insertion order). -/
def objSet : List (String × SearchResults) → String → SearchResults →
    List (String × SearchResults)
  | [], k, v => [(k, v)]
  | (k', v') :: rest, k, v =>
    if k' == k then (k, v) :: rest else (k', v') :: objSet rest k v

/-- JS `delete obj[k]`: remove the property named `k`, if present. -/
def objDelete : List (String × SearchResults) → String →
    List (String × SearchResults)
  | [], _ => []
  | (k', v') :: rest, k =>
    if k' == k then rest else (k', v') :: objDelete rest k

/-- Cache-size limiting (`deepsearch-api.js:366-370`): when the cache holds
more than 20 entries, delete the property named by `Object.keys(cache)[0]`,
i.e. the first-inserted key. -/
def evictCache (cache : List (String × SearchResults)) :
    List (String × SearchResults) :=
  if cache.length > 20 then
    match cache.head? with
    | some p => objDelete cache p.1
    | none => cache
  else cache

/-- The observable outcome of one `executeSearch(query, options)` call:
a returned result, an error thrown to the caller, or a call that never
completes because the awaited promise never settles. -/
inductive CallOutcome where
  | returns (r : SearchResults)
  | throws (e : String)
  | hangs
deriving DecidableEq

/-- The result delivered by a call, when it returns one. -/
def returnedResult : CallOutcome → Option SearchResults
  | .returns r => some r
  | .throws _ => none
  | .hangs => none

/-- `executeSearch(query, options)` (`deepsearch-api.js:311-380`).
`optDepth` is `options.depth`; `fetchResult` stands for the settled outcome
of the remote `fetch` round-trip taken when the API is initialized
(response parsing and the `!response.ok` throw included): a rejection there
happens inside the `try`, is caught and rethrown, and the `finally` clause
clears `searchInProgress`.  On the demo path, a scoring `TypeError` is
thrown inside the `setTimeout` callback of `demoSearch`'s promise executor
(`deepsearch-api.js:159-160`), which binds only `resolve`: the promise
never settles, the `await` never resumes, `catch`/`finally` never run, no
error reaches the caller, and the call hangs with `searchInProgress` left
true and the cache untouched — `CallOutcome.hangs`.  Returns the call's
outcome and the final (for a hang: permanent) state. -/
def executeSearch (st : APIState) (query : String) (optDepth : Option String)
    (fetchResult : Except String SearchResults)
    (academics : List Academic) (now : String) :
    CallOutcome × APIState :=
  if strTrim query = "" then
    (.throws "Empty search query", st)
  else
    let q := strTrim query
    let depth := optDepth.getD st.searchDepth
    let cacheKey := q ++ "_" ++ depth
    match st.searchCache.lookup cacheKey with
    | some cached => (.returns cached, st)
    | none =>
      let st1 : APIState := { st with searchInProgress := true }
      let awaited : CallOutcome :=
        if st1.isInitialized then
          match fetchResult with
          | .ok results => .returns results
          | .error e => .throws e
        else
          match demoSearch q academics now with
          | .ok results => .returns results
          | .error _ => .hangs
      match awaited with
      | .returns results =>
        let cache := evictCache (objSet st1.searchCache cacheKey results)
        (.returns results, { st1 with searchCache := cache, searchInProgress := false })
      | .throws e =>
        (.throws e, { st1 with searchInProgress := false })
      | .hangs =>
        (.hangs, st1)

/-! ## Graph projection `convertToNetworkData` -/

/-- The slice of a (possibly remote) results object that
`convertToNetworkData` reads; both arrays may be absent. -/
structure NetResults where
  matches_ : Option (List MatchOut)
  connections : Option (List Connection)

/-- A visualization node (`deepsearch-api.js:398-423`).  `score` models
`parseFloat(match.score) || 1` on the natural-number scores. -/
structure Node where
  id : String
  group : String
  score : Nat
deriving DecidableEq

/-- A visualization edge (`deepsearch-api.js:426-431`). -/
structure Link where
  source : String
  target : String
  value : Nat
  type : String
deriving DecidableEq

/-- `Map.prototype.set` keyed by `id`: overwrite in place, else append. -/
def nodeSet : List Node → Node → List Node
  | [], n => [n]
  | m :: rest, n =>
    if m.id == n.id then n :: rest else m :: nodeSet rest n

/-- The node seeded from one entry of `results.matches`
(`deepsearch-api.js:397-403`). -/
def matchNode (m : MatchOut) : Node :=
  ⟨m.name, "match", if m.score = 0 then 1 else m.score⟩

/-- The link made from one connection (`deepsearch-api.js:426-431`);
`strength || 1` maps a zero strength to `1`. -/
def linkOf (c : Connection) : Link :=
  ⟨c.academicA, c.academicB, if c.strength = 0 then 1 else c.strength,
    if c.isDirectlyConnected then "direct" else "indirect"⟩

/-- `if (!nodes.has(id)) nodes.set(id, {id, group: 'related', score: 1})`
(`deepsearch-api.js:409-423`): append a `"related"` node unless a node with
that id already exists. -/
def addNodeIfAbsent (nodes : List Node) (a : String) : List Node :=
  if nodes.any (fun n => n.id == a) then nodes
  else nodes ++ [⟨a, "related", 1⟩]

/-- The body of the `results.connections.forEach` loop
(`deepsearch-api.js:407-432`): add missing endpoint nodes with group
`"related"`, then push the link. -/
def addConnection (st : List Node × List Link) (c : Connection) :
    List Node × List Link :=
  (addNodeIfAbsent (addNodeIfAbsent st.1 c.academicA) c.academicB,
    st.2 ++ [linkOf c])

/-- `convertToNetworkData(results)` (`deepsearch-api.js:387-438`): empty
graph for a missing results object or missing `connections`; otherwise one
node per match (deduplicated by name), extra `"related"` nodes for
connection endpoints, and one link per connection. -/
def convertToNetworkData (results : Option NetResults) : List Node × List Link :=
  match results with
  | none => ([], [])
  | some r =>
    match r.connections with
    | none => ([], [])
    | some conns =>
      let nodes0 :=
        match r.matches_ with
        | some ms => ms.foldl (fun acc m => nodeSet acc (matchNode m)) []
        | none => []
      conns.foldl addConnection (nodes0, [])

/-! ## Concrete fixtures (used by witnesses and counterexamples) -/

/-- Test entity: directly connected to Judith Butler, tagged `theme: Power`. -/
def foucault : Academic :=
  { name := some "Michel Foucault"
    bio := some "Historian of systems of thought"
    taxonomies := some [("theme", ["Power"])]
    papers := some [⟨"Discipline and Punish"⟩]
    events := none
    connections := some ["Judith Butler"] }

/-- Test entity: tagged `theme: Power, Gender`, no stored connections. -/
def butler : Academic :=
  { name := some "Judith Butler"
    bio := some "Theorist of gender and power"
    taxonomies := some [("theme", ["Power", "Gender"])]
    papers := none
    events := none
    connections := some [] }

/-- A two-entity corpus where the query `"power"` matches both. -/
def testCorpus : List Academic := [foucault, butler]

/-- An entity record with no `name` field. -/
def nameless : Academic :=
  { name := none
    bio := some "power everywhere"
    taxonomies := some [("theme", ["Power"])] }

/-- `e` is a thrown error. -/
def exceptIsError {ε α : Type} : Except ε α → Bool
  | .error _ => true
  | .ok _ => false

/-- The result with its `timestamp` field blanked, for comparing two runs
up to the clock reading. -/
def stripTimestamp (r : SearchResults) : SearchResults :=
  { r with timestamp := "" }

/-- The `timestamp` field of a returned result, if any. -/
def tsOf : Except String SearchResults → Option String
  | .ok r => some r.timestamp
  | .error _ => none

/-- The scoring formula exactly as the claim words it (C3): the description
term `2 · #{token ⊆ description}` is applied whenever a description exists,
with no non-emptiness guard.  Stated for comparison with `scoreAcademic`,
which is translated from the source. -/
def claimC3Score (keywords : List String) (name : String) (a : Academic) : Nat :=
  (if keywords.any (fun k => strIncludes (strToLower name) k) then 5 else 0)
  + (match a.bio with
     | some bio => 2 * keywords.countP (fun k => strIncludes (strToLower bio) k)
     | none => 0)
  + 3 * (match a.taxonomies with
     | some taxs =>
       (taxs.map (fun cv =>
         (cv.2.map (fun v => keywords.countP (fun k => strIncludes (strToLower v) k))).sum)).sum
     | none => 0)
  + (match a.papers with
     | some ps => (ps.map (fun p => keywords.countP (fun k => strIncludes (strToLower p.title) k))).sum
     | none => 0)
  + (match a.events with
     | some es => (es.map (fun e => keywords.countP (fun k => strIncludes (strToLower e.title) k))).sum
     | none => 0)

/-- An entity whose description is present but empty (`bio: ""`): JS
truthiness skips it during scoring. -/
def emptyBioEntity : Academic :=
  { name := some "anna", bio := some "" }

/-- The pair is explicitly related in the stored data, in either direction:
`A`'s connection list contains `B`'s name or vice versa. -/
def directProp (A B : Scored) : Prop :=
  (∃ l, A.academic.connections = some l ∧ B.name ∈ l) ∨
    (∃ l, B.academic.connections = some l ∧ A.name ∈ l)

/-- Some category is present in both tag mappings with a common value:
the per-category shared-tag evidence is non-empty. -/
def sharedEvidenceProp (a b : Academic) : Prop :=
  ∃ ta tb, a.taxonomies = some ta ∧ b.taxonomies = some tb ∧
    ∃ cv, cv ∈ ta ∧ ∃ valsB, tb.lookup cv.1 = some valsB ∧ ∃ v, v ∈ cv.2 ∧ v ∈ valsB

/-- The number of tag categories of `a` whose value list shares at least one
value with `b`'s list for the same category. -/
def numSharedCats (a b : Academic) : Nat :=
  match a.taxonomies, b.taxonomies with
  | some ta, some tb =>
    ta.countP (fun cv => cv.2.any (fun v => ((tb.lookup cv.1).getD []).contains v))
  | _, _ => 0

/-- The summary string produced for a query with no matches: zero academics,
zero connections, no most-relevant name. -/
def zeroSummary (q : String) : String :=
  "Found " ++ toString (0 : Nat) ++ " academics and " ++ toString (0 : Nat) ++
    " connections related to \"" ++ q ++
    "\".\nThe most relevant academic is " ++ "none" ++ "."

/-- The result of `demoSearch "power" testCorpus "t0"`, written out. -/
def testResult : SearchResults :=
  { query := "power"
    timestamp := "t0"
    matches_ := [⟨"Judith Butler", 5, "100.0%"⟩, ⟨"Michel Foucault", 3, "60.0%"⟩]
    connections := [⟨"Judith Butler", "Michel Foucault", true, [("theme", ["Power"])], 7⟩]
    analysis := "Found 2 academics and 1 connections related to \"power\".\nThe most relevant academic is Judith Butler." }

/-- Butler as scored against the query `"power"`. -/
def scoredButler : Scored := ⟨"Judith Butler", butler, 5⟩

/-- Foucault as scored against the query `"power"`. -/
def scoredFoucault : Scored := ⟨"Michel Foucault", foucault, 3⟩

/-- The connection inferred for the scored Butler/Foucault pair. -/
def testConnection : Connection :=
  ⟨"Judith Butler", "Michel Foucault", true, [("theme", ["Power"])], 7⟩

/-- A fresh demo-mode API state: no key, default depth, empty cache, idle. -/
def initState : APIState :=
  { isInitialized := false
    searchDepth := "medium"
    searchCache := []
    searchInProgress := false }

/-- The keys (`Node.id`) of a node list. -/
def nodeIds (l : List Node) : List String :=
  l.map Node.id

/-! ## Accumulation lemmas for the scoring folds -/

theorem foldl_add_if {α : Type} (p : α → Bool) (c : Nat) :
    ∀ (l : List α) (init : Nat),
      l.foldl (fun s k => if p k then s + c else s) init = init + c * l.countP p := by
  intro l
  induction l with
  | nil => intro init; simp
  | cons x xs ih =>
    intro init
    rw [List.foldl_cons, List.countP_cons]
    cases hx : p x
    · simp [hx, ih]
    · simp [hx, ih]; ring

theorem foldl_add_weight {β : Type} (w : β → Nat) :
    ∀ (l : List β) (init : Nat),
      l.foldl (fun s x => s + w x) init = init + (l.map w).sum := by
  intro l
  induction l with
  | nil => intro init; simp
  | cons x xs ih =>
    intro init
    rw [List.foldl_cons, ih, List.map_cons, List.sum_cons]
    ring

/-- Closed form of the source's accumulated score: the flat +5 name bonus,
+2 per token in the (present, non-empty) bio, +3 per token × taxonomy-value
pair, +1 per token × paper-title pair, +1 per token × event-title pair. -/
theorem scoreAcademic_eq (keywords : List String) (name : String) (a : Academic) :
    scoreAcademic keywords name a =
      (if keywords.any (strIncludes (strToLower name)) then 5 else 0)
      + (match a.bio with
         | some bio =>
           if bio = "" then 0 else 2 * keywords.countP (strIncludes (strToLower bio))
         | none => 0)
      + 3 * (match a.taxonomies with
         | some taxs =>
           (taxs.map (fun cv =>
             (cv.2.map (fun v => keywords.countP (strIncludes (strToLower v)))).sum)).sum
         | none => 0)
      + (match a.papers with
         | some ps => (ps.map (fun p => keywords.countP (strIncludes (strToLower p.title)))).sum
         | none => 0)
      + (match a.events with
         | some es => (es.map (fun e => keywords.countP (strIncludes (strToLower e.title)))).sum
         | none => 0) := by
  rcases a with ⟨nm, bio, taxs, papers, events, conns⟩
  rcases bio with _ | bio <;> rcases taxs with _ | taxs <;>
    rcases papers with _ | papers <;> rcases events with _ | events <;>
      simp only [scoreAcademic, foldl_add_if, foldl_add_weight, one_mul,
        List.sum_map_mul_left]
  all_goals (first | omega | (split_ifs <;> omega))

/-! ## Error propagation of the scoring pass (claim C1) -/

theorem scoreAll_error_iff (kw : List String) :
    ∀ (as : List Academic),
      exceptIsError (scoreAll kw as) = true ↔ ∃ a ∈ as, a.name = none := by
  intro as
  induction as with
  | nil => simp [scoreAll, exceptIsError]
  | cons a rest ih =>
    cases hn : a.name with
    | none =>
      simp only [scoreAll, scoreEntry, hn, exceptIsError]
      constructor
      · intro _; exact ⟨a, List.mem_cons_self a rest, hn⟩
      · intro _; trivial
    | some n =>
      cases hr : scoreAll kw rest with
      | error e =>
        have hex : ∃ b ∈ rest, b.name = none := ih.mp (by simp [hr, exceptIsError])
        simp only [scoreAll, scoreEntry, hn, hr, exceptIsError]
        constructor
        · intro _
          obtain ⟨b, hb, hbn⟩ := hex
          exact ⟨b, List.mem_cons_of_mem a hb, hbn⟩
        · intro _; trivial
      | ok l =>
        simp only [scoreAll, scoreEntry, hn, hr, exceptIsError]
        constructor
        · intro hfalse; exact absurd hfalse (by simp)
        · rintro ⟨b, hb, hbn⟩
          rcases List.mem_cons.mp hb with rfl | hbr
          · rw [hn] at hbn; exact Option.noConfusion hbn
          · have h2 := ih.mpr ⟨b, hbr, hbn⟩
            simp [hr, exceptIsError] at h2

/-- C1.  The source does not skip a record lacking a name: scoring it throws
a `TypeError` that aborts the whole query, so `demoSearch` fails exactly
when some record of the corpus has no name (amended claim). -/
theorem C1_malformed_entity_aborts (query : String) (academics : List Academic) (now : String) :
    exceptIsError (demoSearch query academics now) = true ↔
      ∃ a ∈ academics, a.name = none := by
  rw [← scoreAll_error_iff (keywordsOf query) academics]
  unfold demoSearch
  cases h : scoreAll (keywordsOf query) academics <;> simp [exceptIsError, h]

/-- C1 witness: a corpus holding a single nameless record makes the demo
search fail. -/
theorem C1_witness :
    exceptIsError (demoSearch "power" [nameless] "t0") = true :=
  (C1_malformed_entity_aborts "power" [nameless] "t0").mpr
    ⟨nameless, List.mem_cons_self nameless [], rfl⟩

/-- C1 counterexample to the claim as stated: with a nameless record in
front, the whole query fails with a `TypeError` and the other, matching
record is never reported — nothing is skipped silently. -/
theorem C1_counterexample :
    demoSearch "power" [nameless, butler] "t0" =
      Except.error "TypeError: cannot read name of undefined" := rfl

/-! ## Determinism up to the clock (claim C2) -/

/-- C2 (amended).  `demoSearch` is deterministic given its inputs and the
clock: two calls with the same query and corpus agree on every field of the
result except `timestamp`, which records the invocation time. -/
theorem C2_deterministic_up_to_timestamp (query : String) (academics : List Academic)
    (now1 now2 : String) :
    (demoSearch query academics now1).map stripTimestamp =
      (demoSearch query academics now2).map stripTimestamp := by
  unfold demoSearch
  cases h : scoreAll (keywordsOf query) academics with
  | error e => rfl
  | ok scored => simp [Except.map, buildResults, stripTimestamp]

/-- C2 counterexample to the claim as stated: the same query over the same
corpus returns different results when invoked at different times, because
the result embeds the current timestamp — the output is not a function of
(query, corpus, configuration) alone. -/
theorem C2_counterexample :
    demoSearch "power" testCorpus "2024-01-01T00:00:00Z" ≠
      demoSearch "power" testCorpus "2024-01-02T00:00:00Z" := by
  intro h
  have h1 : tsOf (demoSearch "power" testCorpus "2024-01-01T00:00:00Z") =
      some "2024-01-01T00:00:00Z" := rfl
  have h2 : tsOf (demoSearch "power" testCorpus "2024-01-02T00:00:00Z") =
      some "2024-01-02T00:00:00Z" := rfl
  rw [h, h2] at h1
  exact absurd (Option.some.inj h1) (by decide)

/-! ## The scoring formula (claim C3) -/

/-- C3 (amended).  For every entity that carries a name, the score is:
5 if any surviving token occurs in the lower-cased name (flat, once), plus
2 per token occurring in the lower-cased bio *provided the bio is present
and non-empty* (JS truthiness guard), plus 3 per token × taxonomy-value
pair, plus 1 per token × paper-title pair, plus 1 per token × event-title
pair; tokens come from lower-casing the query, splitting on whitespace,
dropping tokens of length ≤ 3 and stripping non-word characters. -/
theorem C3_score_formula (query : String) (a : Academic) (name : String)
    (h : a.name = some name) :
    scoreEntry (keywordsOf query) a =
      Except.ok ⟨name, a,
        (if (keywordsOf query).any (strIncludes (strToLower name)) then 5 else 0)
        + (match a.bio with
           | some bio =>
             if bio = "" then 0
             else 2 * (keywordsOf query).countP (strIncludes (strToLower bio))
           | none => 0)
        + 3 * (match a.taxonomies with
           | some taxs =>
             (taxs.map (fun cv =>
               (cv.2.map (fun v => (keywordsOf query).countP (strIncludes (strToLower v)))).sum)).sum
           | none => 0)
        + (match a.papers with
           | some ps =>
             (ps.map (fun p => (keywordsOf query).countP (strIncludes (strToLower p.title)))).sum
           | none => 0)
        + (match a.events with
           | some es =>
             (es.map (fun e => (keywordsOf query).countP (strIncludes (strToLower e.title)))).sum
           | none => 0)⟩ := by
  rw [scoreEntry, h, ← scoreAcademic_eq]

/-- C3 witness: the formula evaluated on the Butler fixture for the query
`"power"` (+2 bio, +3 taxonomy). -/
theorem C3_witness :
    scoreEntry (keywordsOf "power") butler = Except.ok ⟨"Judith Butler", butler, 5⟩ := by
  rw [C3_score_formula "power" butler "Judith Butler" rfl]
  congr 1

/-- C3 counterexample to the claim as stated: for an entity whose bio is
present but empty and the query `"####"` (whose single surviving token
strips to the empty string, a substring of everything), the source scores 5
— the truthiness guard `if (academic.bio)` skips the empty bio — while the
claimed formula, which carries no such guard, yields 7. -/
theorem C3_counterexample :
    scoreAcademic (keywordsOf "####") "anna" emptyBioEntity = 5 ∧
    claimC3Score (keywordsOf "####") "anna" emptyBioEntity = 7 ∧
    scoreAcademic (keywordsOf "####") "anna" emptyBioEntity ≠
      claimC3Score (keywordsOf "####") "anna" emptyBioEntity := by
  refine ⟨by decide, by decide, by decide⟩

/-! ## Relation inference (claim C4) -/

theorem directlyConnected_iff (A B : Scored) :
    directlyConnected A B = true ↔ directProp A B := by
  unfold directlyConnected directProp
  cases hA : A.academic.connections <;> cases hB : B.academic.connections <;>
    simp [hA, hB, List.contains]

theorem sharedEntry_isSome_iff (tb : List (String × List String))
    (cv : String × List String) :
    (match tb.lookup cv.1 with
     | some valuesB =>
       let shared := cv.2.filter (fun v => valuesB.contains v)
       if shared.isEmpty then none else some (cv.1, shared)
     | none => (none : Option (String × List String))).isSome = true ↔
      ∃ valsB, tb.lookup cv.1 = some valsB ∧ ∃ v, v ∈ cv.2 ∧ v ∈ valsB := by
  cases hl : tb.lookup cv.1 with
  | none => simp
  | some valuesB =>
    simp only [Option.some.injEq]
    constructor
    · intro h
      refine ⟨valuesB, rfl, ?_⟩
      by_cases he : (cv.2.filter (fun v => valuesB.contains v)).isEmpty
      · rw [if_pos he] at h; exact absurd h (by simp)
      · rw [List.isEmpty_iff, List.filter_eq_nil_iff] at he
        push_neg at he
        obtain ⟨v, hv, hcont⟩ := he
        exact ⟨v, hv, by simpa [List.contains] using hcont⟩
    · rintro ⟨valsB, hvb, v, hv, hvin⟩
      cases hvb
      have hne : ¬(cv.2.filter (fun v => valuesB.contains v)).isEmpty = true := by
        rw [List.isEmpty_iff, List.filter_eq_nil_iff]
        push_neg
        exact ⟨v, hv, by simpa [List.contains] using hvin⟩
      rw [if_neg hne]
      simp

theorem sharedTaxonomies_ne_nil_iff (a b : Academic) :
    sharedTaxonomies a b ≠ [] ↔ sharedEvidenceProp a b := by
  unfold sharedTaxonomies sharedEvidenceProp
  cases ha : a.taxonomies <;> cases hb : b.taxonomies <;> simp only []
  case none.none => simp
  case none.some => simp
  case some.none => simp [ha]
  case some.some =>
    rename_i ta tb
    rw [ne_eq, List.filterMap_eq_nil_iff]
    push_neg
    simp only [ha, Option.some.injEq]
    constructor
    · rintro ⟨cv, hcv, hne⟩
      have hsome := (sharedEntry_isSome_iff tb cv).mp (Option.isSome_iff_ne_none.mpr hne)
      exact ⟨ta, tb, rfl, rfl, cv, hcv, hsome⟩
    · rintro ⟨ta', tb', hta, htb, cv, hcv, hex⟩
      cases hta
      cases htb
      refine ⟨cv, hcv, ?_⟩
      exact Option.isSome_iff_ne_none.mp ((sharedEntry_isSome_iff tb cv).mpr hex)

theorem sharedTaxonomies_length (a b : Academic) :
    (sharedTaxonomies a b).length = numSharedCats a b := by
  unfold sharedTaxonomies numSharedCats
  cases ha : a.taxonomies <;> cases hb : b.taxonomies <;> simp only []
  case none.none => rfl
  case none.some => rfl
  case some.none => rfl
  case some.some =>
    rename_i ta tb
    rw [List.length_filterMap_eq_countP]
    apply List.countP_congr
    intro cv _
    rw [sharedEntry_isSome_iff]
    cases hl : tb.lookup cv.1 <;>
      simp [hl, List.any_eq_true, List.contains]

/-- C4.  For any pair of scored entities, a relation is produced iff the two
are directly connected in either direction or some tag category is shared
with a common value; a produced relation records that direct flag and has
strength `(direct ? 5 : 0) + 2 ·` (number of categories with non-empty
shared evidence).  Over any top-match list, the generated connections are
exactly the surviving upper-triangular pairs. -/
theorem C4_relation_inference (A B : Scored) :
    ((mkConnection A B).isSome = true ↔
      (directProp A B ∨ sharedEvidenceProp A.academic B.academic)) ∧
    (∀ c, mkConnection A B = some c →
      c.isDirectlyConnected = directlyConnected A B ∧
      c.strength = (if directlyConnected A B then 5 else 0)
        + 2 * numSharedCats A.academic B.academic) ∧
    (∀ (tops : List Scored) (c : Connection),
      c ∈ connectionsOf tops ↔ ∃ p ∈ pairsUpper tops, mkConnection p.1 p.2 = some c) := by
  refine ⟨?_, ?_, ?_⟩
  · unfold mkConnection
    by_cases hd : directlyConnected A B = true
    · simp [hd, (directlyConnected_iff A B).mp hd]
    · have hd' : ¬ directProp A B := fun hp => hd ((directlyConnected_iff A B).mpr hp)
      have hdb : directlyConnected A B = false := by
        revert hd; cases directlyConnected A B <;> simp
      simp only [hdb, Bool.false_or, hd', false_or]
      rw [← sharedTaxonomies_ne_nil_iff]
      cases hs : sharedTaxonomies A.academic B.academic with
      | nil => simp
      | cons x xs => simp
  · intro c hc
    unfold mkConnection at hc
    by_cases hcond : (directlyConnected A B || !(sharedTaxonomies A.academic B.academic).isEmpty) = true
    · rw [if_pos hcond] at hc
      cases hc
      exact ⟨rfl, by rw [sharedTaxonomies_length]; ring⟩
    · rw [if_neg hcond] at hc
      exact absurd hc (by simp)
  · intro tops c
    unfold connectionsOf
    rw [List.mem_filterMap]

/-- C4 witness: the Butler/Foucault pair is directly connected, shares the
`theme` category, and its connection has strength `5 + 2·1 = 7`. -/
theorem C4_witness :
    (mkConnection scoredButler scoredFoucault).isSome = true ∧
    testConnection.strength =
      (if directlyConnected scoredButler scoredFoucault then 5 else 0)
        + 2 * numSharedCats butler foucault := by
  have h := C4_relation_inference scoredButler scoredFoucault
  constructor
  · exact h.1.mpr (Or.inl (Or.inr ⟨["Judith Butler"], rfl, by decide⟩))
  · exact (h.2.1 testConnection (by decide)).2

/-! ## Ranking shape (claim C5) -/

theorem pairsUpper_double_length {α : Type} :
    ∀ l : List α, 2 * (pairsUpper l).length = l.length * (l.length - 1) := by
  intro l
  induction l with
  | nil => simp [pairsUpper]
  | cons x xs ih =>
    simp only [pairsUpper, List.length_append, List.length_map, List.length_cons]
    have h2 : (xs.length + 1) * (xs.length + 1 - 1)
        = 2 * xs.length + xs.length * (xs.length - 1) := by
      cases hn : xs.length with
      | zero => simp
      | succ m => rw [Nat.add_sub_cancel, Nat.succ_sub_one]; ring
    omega

theorem pairsUpper_length_le {α : Type} (l : List α) (h : l.length ≤ 5) :
    (pairsUpper l).length ≤ 10 := by
  have h2 := pairsUpper_double_length l
  have h3 : l.length * (l.length - 1) ≤ 5 * 4 := Nat.mul_le_mul h (by omega)
  omega

/-- Stability of the match sort: for every score value, the matches holding
that score appear in the sorted list exactly in their encounter order. -/
theorem insertionSort_filter_ties (l : List Scored) (s : Nat) :
    (l.insertionSort scoreDescR).filter (fun m => m.score == s)
      = l.filter (fun m => m.score == s) := by
  have hsub : List.Sublist (l.filter (fun m => m.score == s)) l := List.filter_sublist l
  have hpair : (l.filter (fun m => m.score == s)).Pairwise scoreDescR := by
    apply List.pairwise_of_forall_mem_list
    intro x hx y hy
    have hx' := List.of_mem_filter hx
    have hy' := List.of_mem_filter hy
    simp only [beq_iff_eq] at hx' hy'
    unfold scoreDescR
    omega
  have hstable : List.Sublist (l.filter (fun m => m.score == s)) (l.insertionSort scoreDescR) :=
    List.sublist_insertionSort hpair hsub
  have hperm : List.Perm ((l.insertionSort scoreDescR).filter (fun m => m.score == s))
      (l.filter (fun m => m.score == s)) :=
    (List.perm_insertionSort scoreDescR l).filter _
  have hsub2 : List.Sublist (l.filter (fun m => m.score == s))
      ((l.insertionSort scoreDescR).filter (fun m => m.score == s)) := by
    have h2 := hstable.filter (fun m => m.score == s)
    rw [List.filter_filter] at h2
    simpa only [Bool.and_self] using h2
  exact (hsub2.eq_of_length (hperm.length_eq.symm)).symm

/-- C5.  Every returned match has positive score; the returned matches are
non-increasing in score with ties in encounter order (the sort is stable);
at most 10 matches and at most 10 relations are returned for any corpus. -/
theorem C5_ranking_shape (q : String) (as : List Academic) (now : String)
    (r : SearchResults) (h : demoSearch q as now = Except.ok r) :
    (∀ m ∈ r.matches_, 0 < m.score) ∧
    r.matches_.Pairwise (fun m1 m2 => m2.score ≤ m1.score) ∧
    r.matches_.length ≤ 10 ∧
    r.connections.length ≤ 10 ∧
    (∀ scored : List Scored, scoreAll (keywordsOf q) as = Except.ok scored →
      ∀ s : Nat,
        ((scored.filter (fun m => 0 < m.score)).insertionSort scoreDescR).filter
            (fun m => m.score == s)
          = (scored.filter (fun m => 0 < m.score)).filter (fun m => m.score == s)) := by
  unfold demoSearch at h
  cases hs : scoreAll (keywordsOf q) as with
  | error e => rw [hs] at h; exact absurd h (by simp)
  | ok scored =>
    rw [hs] at h
    injection h with h
    subst h
    simp only [buildResults]
    refine ⟨?_, ?_, ?_, ?_, ?_⟩
    · intro m hm
      obtain ⟨m', hm', hfm⟩ := List.mem_map.mp hm
      have h1 : m' ∈ (scored.filter (fun m => 0 < m.score)).insertionSort scoreDescR :=
        List.mem_of_mem_take hm'
      have h2 := List.of_mem_filter ((List.mem_insertionSort _).mp h1)
      rw [← hfm]
      simpa using h2
    · rw [List.pairwise_map]
      have hsorted := List.sorted_insertionSort scoreDescR
        (scored.filter (fun m => 0 < m.score))
      exact (List.Pairwise.sublist (List.take_sublist 10 _) hsorted).imp (fun hab => hab)
    · simp [List.length_take]
    · rw [List.length_insertionSort]
      unfold connectionsOf
      refine le_trans (List.length_filterMap_le _ _) ?_
      apply pairsUpper_length_le
      simp [List.length_take]
    · intro scored' _ s
      exact insertionSort_filter_ties _ s

/-- C5 witness: the concrete run of the two-entity corpus respects the
bounds on matches and relations. -/
theorem C5_witness :
    testResult.matches_.length ≤ 10 ∧ testResult.connections.length ≤ 10 := by
  have h := C5_ranking_shape "power" testCorpus "t0" testResult rfl
  exact ⟨h.2.2.1, h.2.2.2.1⟩

/-! ## Failure semantics of `executeSearch` (claim C6) -/

theorem scoreAcademic_nil (name : String) (a : Academic) :
    scoreAcademic [] name a = 0 := by
  rw [scoreAcademic_eq]
  rcases a with ⟨nm, bio, taxs, papers, events, conns⟩
  rcases bio with _ | bio <;> rcases taxs with _ | taxs <;>
    rcases papers with _ | papers <;> rcases events with _ | events <;>
      split_ifs <;>
      simp_all [List.sum_eq_zero_iff, List.mem_map]

theorem scoreAll_nil_keywords :
    ∀ (as : List Academic), (∀ a ∈ as, a.name.isSome) →
      ∃ scored, scoreAll [] as = Except.ok scored ∧ ∀ m ∈ scored, m.score = 0 := by
  intro as
  induction as with
  | nil => intro _; exact ⟨[], rfl, by simp⟩
  | cons a rest ih =>
    intro h
    obtain ⟨n, hn⟩ := Option.isSome_iff_exists.mp (h a (List.mem_cons_self a rest))
    obtain ⟨scored, hsc, h0⟩ := ih (fun b hb => h b (List.mem_cons_of_mem a hb))
    refine ⟨⟨n, a, scoreAcademic [] n a⟩ :: scored, ?_, ?_⟩
    · simp only [scoreAll, scoreEntry, hn, hsc]
    · intro m hm
      rcases List.mem_cons.mp hm with rfl | hm'
      · exact scoreAcademic_nil n a
      · exact h0 m hm'

theorem buildResults_no_matches (q now : String) (scored : List Scored)
    (h0 : ∀ m ∈ scored, m.score = 0) :
    (buildResults q now scored).matches_ = [] ∧
    (buildResults q now scored).connections = [] ∧
    (buildResults q now scored).analysis = zeroSummary q := by
  have hfil : scored.filter (fun m => 0 < m.score) = [] := by
    rw [List.filter_eq_nil_iff]
    intro m hm
    simp [h0 m hm]
  simp only [buildResults, hfil]
  exact ⟨rfl, rfl, rfl⟩

theorem demoSearch_error_exists (q : String) (as : List Academic) (now : String)
    (h : ∃ a ∈ as, a.name = none) :
    ∃ e, demoSearch q as now = Except.error e := by
  have h2 := (scoreAll_error_iff (keywordsOf q) as).mpr h
  unfold demoSearch
  cases hs : scoreAll (keywordsOf q) as with
  | error e => exact ⟨e, rfl⟩
  | ok scored => rw [hs] at h2; simp [exceptIsError] at h2

/-- C6 (amended).  A query that is empty or whitespace-only after trimming
throws the `InvalidQuery` error at once, before the corpus is consulted and
with the state untouched.  A non-empty demo-mode query that misses the
cache degrades gracefully to a returned empty result with a zero-match
summary both for an empty corpus and for a corpus of named records when
every token is filtered out; but a corpus record lacking a name makes the
call hang forever — the `TypeError` thrown inside the timer callback leaves
the promise unsettled, so no result or error is ever delivered — hence
graceful degradation holds only for corpora whose records all carry
names. -/
theorem C6_failure_semantics :
    (∀ (st : APIState) (query : String) (d : Option String)
      (f : Except String SearchResults) (as : List Academic) (now : String),
      strTrim query = "" →
        executeSearch st query d f as now = (CallOutcome.throws "Empty search query", st)) ∧
    (∀ (st : APIState) (query : String) (d : Option String)
      (f : Except String SearchResults) (now : String),
      st.isInitialized = false → strTrim query ≠ "" →
      st.searchCache.lookup (strTrim query ++ "_" ++ d.getD st.searchDepth) = none →
      ((returnedResult (executeSearch st query d f [] now).1).map SearchResults.matches_
          = some [] ∧
       (returnedResult (executeSearch st query d f [] now).1).map SearchResults.connections
          = some [] ∧
       (returnedResult (executeSearch st query d f [] now).1).map SearchResults.analysis
          = some (zeroSummary (strTrim query)))) ∧
    (∀ (st : APIState) (query : String) (d : Option String)
      (f : Except String SearchResults) (as : List Academic) (now : String),
      st.isInitialized = false → strTrim query ≠ "" →
      st.searchCache.lookup (strTrim query ++ "_" ++ d.getD st.searchDepth) = none →
      (∀ a ∈ as, a.name.isSome) → keywordsOf (strTrim query) = [] →
      ((returnedResult (executeSearch st query d f as now).1).map SearchResults.matches_
          = some [] ∧
       (returnedResult (executeSearch st query d f as now).1).map SearchResults.connections
          = some [] ∧
       (returnedResult (executeSearch st query d f as now).1).map SearchResults.analysis
          = some (zeroSummary (strTrim query)))) ∧
    (∀ (st : APIState) (query : String) (d : Option String)
      (f : Except String SearchResults) (as : List Academic) (now : String),
      st.isInitialized = false → strTrim query ≠ "" →
      st.searchCache.lookup (strTrim query ++ "_" ++ d.getD st.searchDepth) = none →
      (∃ a ∈ as, a.name = none) →
      executeSearch st query d f as now
        = (CallOutcome.hangs, { st with searchInProgress := true })) := by
  refine ⟨?_, ?_, ?_, ?_⟩
  · intro st query d f as now hq
    unfold executeSearch
    rw [if_pos hq]
  · intro st query d f now hinit hne hmiss
    have hdemo : demoSearch (strTrim query) [] now
        = Except.ok (buildResults (strTrim query) now []) := rfl
    have hb := buildResults_no_matches (strTrim query) now [] (by simp)
    unfold executeSearch
    rw [if_neg hne]
    simp only [hmiss, hinit, Bool.false_eq_true, if_false, hdemo]
    exact ⟨by simp [returnedResult, hb.1], by simp [returnedResult, hb.2.1],
      by simp [returnedResult, hb.2.2]⟩
  · intro st query d f as now hinit hne hmiss hnames hkw
    obtain ⟨scored, hsc, h0⟩ := scoreAll_nil_keywords as hnames
    have hdemo : demoSearch (strTrim query) as now
        = Except.ok (buildResults (strTrim query) now scored) := by
      unfold demoSearch
      rw [hkw, hsc]
    have hb := buildResults_no_matches (strTrim query) now scored h0
    unfold executeSearch
    rw [if_neg hne]
    simp only [hmiss, hinit, Bool.false_eq_true, if_false, hdemo]
    exact ⟨by simp [returnedResult, hb.1], by simp [returnedResult, hb.2.1],
      by simp [returnedResult, hb.2.2]⟩
  · intro st query d f as now hinit hne hmiss hbad
    obtain ⟨e, he⟩ := demoSearch_error_exists (strTrim query) as now hbad
    unfold executeSearch
    rw [if_neg hne]
    simp only [hmiss, hinit, Bool.false_eq_true, if_false, he]

/-- C6 witness: the whitespace-only query throws fast with the state
untouched, and the all-filler query `"a is to"` over the two-entity corpus
returns an empty match list. -/
theorem C6_witness :
    executeSearch initState "   " none (Except.error "x") [] "t0"
      = (CallOutcome.throws "Empty search query", initState) ∧
    (returnedResult (executeSearch initState "a is to" none (Except.error "x")
        testCorpus "t0").1).map SearchResults.matches_ = some [] := by
  constructor
  · exact C6_failure_semantics.1 initState "   " none (Except.error "x") [] "t0" (by decide)
  · exact (C6_failure_semantics.2.2.1 initState "a is to" none (Except.error "x") testCorpus "t0"
      rfl (by decide) rfl (by decide) (by decide)).1

/-- C6 counterexample to the claim as stated: a non-whitespace query over a
corpus holding a record without a name neither fails with `InvalidQuery`
nor returns a result — the `TypeError` thrown inside the timer callback
leaves the promise unsettled, the call hangs, and `searchInProgress` stays
true — so it is not true that every non-blank input yields a result. -/
theorem C6_counterexample :
    strTrim "power" ≠ "" ∧
    executeSearch initState "power" none (Except.error "unused") [nameless] "t0"
      = (CallOutcome.hangs, ⟨false, "medium", [], true⟩) := by
  exact ⟨by decide, rfl⟩

/-! ## The bounded FIFO cache (claim C8) -/

theorem objSet_of_lookup_none :
    ∀ (cache : List (String × SearchResults)) (k : String) (v : SearchResults),
      cache.lookup k = none → objSet cache k v = cache ++ [(k, v)] := by
  intro cache k v
  induction cache with
  | nil => intro _; rfl
  | cons p rest ih =>
    rcases p with ⟨k', v'⟩
    intro h
    rw [List.lookup_cons] at h
    by_cases hk : k = k'
    · subst hk; simp at h
    · have hk2 : (k == k') = false := by simpa using hk
      rw [hk2] at h
      have hk3 : (k' == k) = false := by simpa using Ne.symm hk
      simp only [objSet, hk3, Bool.false_eq_true, if_false, List.cons_append,
        List.cons.injEq, true_and]
      exact ih h

theorem objDelete_cons_self (k : String) (v : SearchResults)
    (rest : List (String × SearchResults)) :
    objDelete ((k, v) :: rest) k = rest := by
  simp [objDelete]

theorem evictCache_append_le (cache : List (String × SearchResults)) (k : String)
    (v : SearchResults) (h : cache.length ≤ 20) :
    (evictCache (cache ++ [(k, v)])).length ≤ 20 := by
  unfold evictCache
  by_cases h20 : (cache ++ [(k, v)]).length > 20
  · rw [if_pos h20]
    cases cache with
    | nil => simp at h20
    | cons p t =>
      rcases p with ⟨k0, v0⟩
      simp only [List.cons_append, List.head?_cons]
      rw [objDelete_cons_self]
      simp only [List.length_append, List.length_cons, List.length_nil] at h ⊢
      omega
  · rw [if_neg h20]
    simp only [List.length_append, List.length_cons, List.length_nil] at h20 ⊢
    omega

theorem evictCache_append_full (k0 : String) (v0 : SearchResults)
    (rest : List (String × SearchResults)) (k : String) (v : SearchResults)
    (h20 : ((k0, v0) :: rest).length = 20) :
    evictCache (((k0, v0) :: rest) ++ [(k, v)]) = rest ++ [(k, v)] := by
  unfold evictCache
  simp only [List.cons_append, List.head?_cons]
  rw [if_pos (by
    simp only [List.length_cons] at h20
    simp only [List.length_cons, List.length_append, List.length_nil]
    omega)]
  rw [objDelete_cons_self]

/-- C8.  Starting from a cache of at most 20 entries (the reachable states),
after any `executeSearch` the cache again holds at most 20 entries; a cache
hit leaves the cache exactly as it was (no recency reordering); and when an
insertion into a full 20-entry cache occurs, the first-inserted entry is
evicted and the new entry is appended at the back — bounded FIFO. -/
theorem C8_cache_fifo_bound (st : APIState) (query : String) (d : Option String)
    (f : Except String SearchResults) (as : List Academic) (now : String)
    (hsize : st.searchCache.length ≤ 20) :
    ((executeSearch st query d f as now).2.searchCache.length ≤ 20) ∧
    (∀ cached, st.searchCache.lookup (strTrim query ++ "_" ++ d.getD st.searchDepth)
        = some cached →
      (executeSearch st query d f as now).2.searchCache = st.searchCache) ∧
    (∀ k0 v0 rest results,
      st.searchCache = (k0, v0) :: rest → st.searchCache.length = 20 →
      st.searchCache.lookup (strTrim query ++ "_" ++ d.getD st.searchDepth) = none →
      (executeSearch st query d f as now).1 = CallOutcome.returns results →
      (executeSearch st query d f as now).2.searchCache
        = rest ++ [(strTrim query ++ "_" ++ d.getD st.searchDepth, results)]) := by
  refine ⟨?_, ?_, ?_⟩
  · by_cases hq : strTrim query = ""
    · have hgoal : (executeSearch st query d f as now).2 = st := by
        simp only [executeSearch, if_pos hq]
      rw [hgoal]
      exact hsize
    · cases hl : st.searchCache.lookup (strTrim query ++ "_" ++ d.getD st.searchDepth) with
      | some cached =>
        have hgoal : (executeSearch st query d f as now).2 = st := by
          simp only [executeSearch, if_neg hq, hl]
        rw [hgoal]
        exact hsize
      | none =>
        cases hi : st.isInitialized with
        | true =>
          cases f with
          | error e =>
            have hgoal : (executeSearch st query d (Except.error e) as now).2.searchCache
                = st.searchCache := by
              simp only [executeSearch, if_neg hq, hl, hi, eq_self_iff_true, if_true]
            rw [hgoal]
            exact hsize
          | ok results0 =>
            have hgoal : (executeSearch st query d (Except.ok results0) as now).2.searchCache
                = evictCache (objSet st.searchCache
                  (strTrim query ++ "_" ++ d.getD st.searchDepth) results0) := by
              simp only [executeSearch, if_neg hq, hl, hi, eq_self_iff_true, if_true]
            rw [hgoal, objSet_of_lookup_none _ _ _ hl]
            exact evictCache_append_le _ _ _ hsize
        | false =>
          cases hr : demoSearch (strTrim query) as now with
          | error e =>
            have hgoal : (executeSearch st query d f as now).2.searchCache
                = st.searchCache := by
              simp only [executeSearch, if_neg hq, hl, hi, Bool.false_eq_true, if_false, hr]
            rw [hgoal]
            exact hsize
          | ok results0 =>
            have hgoal : (executeSearch st query d f as now).2.searchCache
                = evictCache (objSet st.searchCache
                  (strTrim query ++ "_" ++ d.getD st.searchDepth) results0) := by
              simp only [executeSearch, if_neg hq, hl, hi, Bool.false_eq_true, if_false, hr]
            rw [hgoal, objSet_of_lookup_none _ _ _ hl]
            exact evictCache_append_le _ _ _ hsize
  · intro cached hc
    by_cases hq : strTrim query = ""
    · simp only [executeSearch, if_pos hq]
    · simp only [executeSearch, if_neg hq, hc]
  · intro k0 v0 rest results hc h20 hm hres
    by_cases hq : strTrim query = ""
    · rw [executeSearch.eq_def, if_pos hq] at hres
      exact absurd hres (by simp)
    · cases hi : st.isInitialized with
      | true =>
        cases f with
        | error e =>
          rw [executeSearch.eq_def, if_neg hq] at hres
          simp only [hm, hi, eq_self_iff_true, if_true] at hres
          exact CallOutcome.noConfusion hres
        | ok results0 =>
          have hres0 : results0 = results := by
            rw [executeSearch.eq_def, if_neg hq] at hres
            simp only [hm, hi, eq_self_iff_true, if_true] at hres
            simpa using hres
          subst hres0
          have hgoal : (executeSearch st query d (Except.ok results0) as now).2.searchCache
              = evictCache (objSet st.searchCache
                (strTrim query ++ "_" ++ d.getD st.searchDepth) results0) := by
            simp only [executeSearch, if_neg hq, hm, hi, eq_self_iff_true, if_true]
          rw [hgoal, objSet_of_lookup_none _ _ _ hm, hc]
          exact evictCache_append_full k0 v0 rest _ _ (by rw [hc] at h20; exact h20)
      | false =>
        cases hr : demoSearch (strTrim query) as now with
        | error e =>
          rw [executeSearch.eq_def, if_neg hq] at hres
          simp only [hm, hi, Bool.false_eq_true, if_false, hr] at hres
          exact CallOutcome.noConfusion hres
        | ok results0 =>
          have hres0 : results0 = results := by
            rw [executeSearch.eq_def, if_neg hq] at hres
            simp only [hm, hi, Bool.false_eq_true, if_false, hr] at hres
            simpa using hres
          subst hres0
          have hgoal : (executeSearch st query d f as now).2.searchCache
              = evictCache (objSet st.searchCache
                (strTrim query ++ "_" ++ d.getD st.searchDepth) results0) := by
            simp only [executeSearch, if_neg hq, hm, hi, Bool.false_eq_true, if_false, hr]
          rw [hgoal, objSet_of_lookup_none _ _ _ hm, hc]
          exact evictCache_append_full k0 v0 rest _ _ (by rw [hc] at h20; exact h20)

/-- C8 witness: a call on the fresh empty-cache state keeps the cache within
the 20-entry bound. -/
theorem C8_witness :
    (executeSearch initState "power" none (Except.error "x") testCorpus "t0").2.searchCache.length
      ≤ 20 :=
  (C8_cache_fifo_bound initState "power" none (Except.error "x") testCorpus "t0"
    (by decide)).1

/-! ## The in-progress flag (claim C10) -/

/-- C10 (amended).  From an idle state, every `executeSearch` call that
completes — returning a fresh result, serving the cache, failing
validation, or rethrowing a fetch error through `catch`/`finally` — leaves
`searchInProgress` false.  A demo search whose scoring throws never
completes (the promise never settles, so `finally` never runs) and leaves
the flag stuck at true, as the counterexample exhibits. -/
theorem C10_flag_cleared (st : APIState) (query : String) (d : Option String)
    (f : Except String SearchResults) (as : List Academic) (now : String)
    (h : st.searchInProgress = false)
    (hdone : (executeSearch st query d f as now).1 ≠ CallOutcome.hangs) :
    (executeSearch st query d f as now).2.searchInProgress = false := by
  by_cases hq : strTrim query = ""
  · have hgoal : (executeSearch st query d f as now).2 = st := by
      simp only [executeSearch, if_pos hq]
    rw [hgoal]
    exact h
  · cases hl : st.searchCache.lookup (strTrim query ++ "_" ++ d.getD st.searchDepth) with
    | some cached =>
      have hgoal : (executeSearch st query d f as now).2 = st := by
        simp only [executeSearch, if_neg hq, hl]
      rw [hgoal]
      exact h
    | none =>
      cases hi : st.isInitialized with
      | true =>
        cases f with
        | error e =>
          simp only [executeSearch, if_neg hq, hl, hi, eq_self_iff_true, if_true]
        | ok results0 =>
          simp only [executeSearch, if_neg hq, hl, hi, eq_self_iff_true, if_true]
      | false =>
        cases hr : demoSearch (strTrim query) as now with
        | error e =>
          have hhang : (executeSearch st query d f as now).1 = CallOutcome.hangs := by
            simp only [executeSearch, if_neg hq, hl, hi, Bool.false_eq_true, if_false, hr]
          exact absurd hhang hdone
        | ok results0 =>
          simp only [executeSearch, if_neg hq, hl, hi, Bool.false_eq_true, if_false, hr]

/-- C10 witness: a rejected fetch on the idle initialized state completes
with a thrown error and leaves the flag false. -/
theorem C10_witness :
    (executeSearch ⟨true, "medium", [], false⟩ "power" none (Except.error "boom") [] "t0").2.searchInProgress
      = false :=
  C10_flag_cleared ⟨true, "medium", [], false⟩ "power" none (Except.error "boom") [] "t0" rfl
    (by decide)

/-- C10 counterexample to the claim as stated: a demo search over a corpus
holding a nameless record throws inside the timer callback, the promise
never settles, `finally` never runs, and the call leaves `searchInProgress`
stuck at true — a failing search does leave the flag at true. -/
theorem C10_counterexample :
    (executeSearch initState "hello" none (Except.error "x") [nameless, butler] "t1").1
      = CallOutcome.hangs ∧
    (executeSearch initState "hello" none (Except.error "x") [nameless, butler] "t1").2.searchInProgress
      = true := by
  exact ⟨rfl, rfl⟩

/-! ## Graph projection (claims C7 and C9) -/

theorem any_id_beq (l : List Node) (a : String) :
    (l.any (fun n => n.id == a)) = true ↔ a ∈ l.map Node.id := by
  rw [List.any_eq_true]
  constructor
  · rintro ⟨n, hn, hbeq⟩
    have he : n.id = a := by simpa using hbeq
    exact he ▸ List.mem_map_of_mem Node.id hn
  · intro h
    obtain ⟨n, hn, he⟩ := List.mem_map.mp h
    exact ⟨n, hn, by simp [he]⟩

theorem mem_nodeSet_keys :
    ∀ (l : List Node) (n : Node) (i : String),
      i ∈ (nodeSet l n).map Node.id ↔ i ∈ l.map Node.id ∨ i = n.id := by
  intro l n
  induction l with
  | nil => intro i; simp [nodeSet]
  | cons m rest ih =>
    intro i
    simp only [nodeSet]
    by_cases h : (m.id == n.id) = true
    · rw [if_pos h]
      have hmn : m.id = n.id := by simpa using h
      simp only [List.map_cons, List.mem_cons, hmn]
      tauto
    · rw [if_neg h]
      simp only [List.map_cons, List.mem_cons, ih]
      tauto

theorem nodeSet_keys_nodup :
    ∀ (l : List Node) (n : Node),
      (l.map Node.id).Nodup → ((nodeSet l n).map Node.id).Nodup := by
  intro l n
  induction l with
  | nil => intro _; simp [nodeSet]
  | cons m rest ih =>
    intro h
    rw [List.map_cons, List.nodup_cons] at h
    obtain ⟨hm, hrest⟩ := h
    simp only [nodeSet]
    by_cases hb : (m.id == n.id) = true
    · have hmn : m.id = n.id := by simpa using hb
      rw [if_pos hb]
      simp only [List.map_cons, List.nodup_cons]
      exact ⟨by rw [← hmn]; exact hm, hrest⟩
    · have hne : m.id ≠ n.id := by simpa using hb
      rw [if_neg hb]
      simp only [List.map_cons, List.nodup_cons]
      refine ⟨?_, ih hrest⟩
      intro hmem
      rcases (mem_nodeSet_keys rest n m.id).mp hmem with h1 | h1
      · exact hm h1
      · exact hne h1

theorem mem_nodeSet :
    ∀ (l : List Node) (n x : Node), x ∈ nodeSet l n → x = n ∨ x ∈ l := by
  intro l n
  induction l with
  | nil => intro x hx; simp [nodeSet] at hx; exact Or.inl hx
  | cons m rest ih =>
    intro x hx
    simp only [nodeSet] at hx
    by_cases hb : (m.id == n.id) = true
    · rw [if_pos hb] at hx
      rcases List.mem_cons.mp hx with rfl | hx
      · exact Or.inl rfl
      · exact Or.inr (List.mem_cons_of_mem m hx)
    · rw [if_neg hb] at hx
      rcases List.mem_cons.mp hx with rfl | hx
      · exact Or.inr (List.mem_cons_self x rest)
      · rcases ih x hx with h1 | h1
        · exact Or.inl h1
        · exact Or.inr (List.mem_cons_of_mem m h1)

theorem matchFold_keys :
    ∀ (ms : List MatchOut) (acc : List Node) (i : String),
      i ∈ ((ms.foldl (fun acc m => nodeSet acc (matchNode m)) acc).map Node.id) ↔
        i ∈ acc.map Node.id ∨ i ∈ ms.map MatchOut.name := by
  intro ms
  induction ms with
  | nil => intro acc i; simp
  | cons m rest ih =>
    intro acc i
    rw [List.foldl_cons, ih, mem_nodeSet_keys]
    simp only [matchNode, List.map_cons, List.mem_cons]
    tauto

theorem matchFold_nodup :
    ∀ (ms : List MatchOut) (acc : List Node),
      (acc.map Node.id).Nodup →
      ((ms.foldl (fun acc m => nodeSet acc (matchNode m)) acc).map Node.id).Nodup := by
  intro ms
  induction ms with
  | nil => intro acc h; exact h
  | cons m rest ih =>
    intro acc h
    rw [List.foldl_cons]
    exact ih _ (nodeSet_keys_nodup acc (matchNode m) h)

theorem matchFold_group :
    ∀ (ms : List MatchOut) (acc : List Node) (x : Node),
      x ∈ ms.foldl (fun acc m => nodeSet acc (matchNode m)) acc →
      x ∈ acc ∨ x.group = "match" := by
  intro ms
  induction ms with
  | nil => intro acc x hx; exact Or.inl hx
  | cons m rest ih =>
    intro acc x hx
    rw [List.foldl_cons] at hx
    rcases ih _ x hx with h1 | h1
    · rcases mem_nodeSet acc (matchNode m) x h1 with rfl | h2
      · exact Or.inr rfl
      · exact Or.inl h2
    · exact Or.inr h1

theorem addNodeIfAbsent_keys (nodes : List Node) (a : String) (i : String) :
    i ∈ (addNodeIfAbsent nodes a).map Node.id ↔ i ∈ nodes.map Node.id ∨ i = a := by
  unfold addNodeIfAbsent
  by_cases h : (nodes.any (fun n => n.id == a)) = true
  · rw [if_pos h]
    have ha := (any_id_beq nodes a).mp h
    constructor
    · exact Or.inl
    · rintro (hi | rfl)
      · exact hi
      · exact ha
  · rw [if_neg h]
    simp [List.mem_append]

theorem addNodeIfAbsent_nodup (nodes : List Node) (a : String)
    (h : (nodes.map Node.id).Nodup) :
    ((addNodeIfAbsent nodes a).map Node.id).Nodup := by
  unfold addNodeIfAbsent
  by_cases h2 : (nodes.any (fun n => n.id == a)) = true
  · rw [if_pos h2]; exact h
  · rw [if_neg h2]
    rw [List.map_append, List.nodup_append]
    refine ⟨h, by simp, ?_⟩
    intro i hi
    simp only [List.map_cons, List.map_nil, List.mem_cons, List.not_mem_nil, or_false]
    intro he
    subst he
    exact h2 ((any_id_beq nodes i).mpr hi)

theorem mem_addNodeIfAbsent (nodes : List Node) (a : String) (x : Node)
    (hx : x ∈ addNodeIfAbsent nodes a) :
    x ∈ nodes ∨ (x = ⟨a, "related", 1⟩ ∧ a ∉ nodes.map Node.id) := by
  unfold addNodeIfAbsent at hx
  by_cases h : (nodes.any (fun n => n.id == a)) = true
  · rw [if_pos h] at hx; exact Or.inl hx
  · rw [if_neg h] at hx
    rcases List.mem_append.mp hx with h1 | h1
    · exact Or.inl h1
    · right
      refine ⟨by simpa using h1, fun hmem => h ((any_id_beq nodes a).mpr hmem)⟩

theorem addConnection_keys (st : List Node × List Link) (c : Connection) (i : String) :
    i ∈ (addConnection st c).1.map Node.id ↔
      i ∈ st.1.map Node.id ∨ i = c.academicA ∨ i = c.academicB := by
  unfold addConnection
  rw [addNodeIfAbsent_keys, addNodeIfAbsent_keys]
  tauto

theorem addConnection_nodup (st : List Node × List Link) (c : Connection)
    (h : (st.1.map Node.id).Nodup) :
    ((addConnection st c).1.map Node.id).Nodup :=
  addNodeIfAbsent_nodup _ _ (addNodeIfAbsent_nodup _ _ h)

theorem mem_addConnection_nodes (st : List Node × List Link) (c : Connection)
    (x : Node) (hx : x ∈ (addConnection st c).1) :
    x ∈ st.1 ∨ (x.group = "related" ∧ x.id ∉ st.1.map Node.id) := by
  unfold addConnection at hx
  rcases mem_addNodeIfAbsent _ _ _ hx with h1 | ⟨he, hnotin⟩
  · rcases mem_addNodeIfAbsent _ _ _ h1 with h2 | ⟨he, hnotin⟩
    · exact Or.inl h2
    · subst he
      exact Or.inr ⟨rfl, hnotin⟩
  · subst he
    right
    refine ⟨rfl, fun hmem => hnotin ?_⟩
    rw [addNodeIfAbsent_keys]
    exact Or.inl hmem

theorem connFold (conns : List Connection) :
    ∀ (st : List Node × List Link),
      ((conns.foldl addConnection st).2 = st.2 ++ conns.map linkOf) ∧
      ((st.1.map Node.id).Nodup → ((conns.foldl addConnection st).1.map Node.id).Nodup) ∧
      (∀ i, i ∈ (conns.foldl addConnection st).1.map Node.id ↔
        i ∈ st.1.map Node.id ∨ ∃ c ∈ conns, i = c.academicA ∨ i = c.academicB) ∧
      (∀ x ∈ (conns.foldl addConnection st).1,
        x ∈ st.1 ∨ (x.group = "related" ∧ x.id ∉ st.1.map Node.id)) := by
  induction conns with
  | nil =>
    intro st
    exact ⟨by simp, fun h => h, by simp, fun x hx => Or.inl hx⟩
  | cons c rest ih =>
    intro st
    rw [List.foldl_cons]
    obtain ⟨ih1, ih2, ih3, ih4⟩ := ih (addConnection st c)
    refine ⟨?_, ?_, ?_, ?_⟩
    · rw [ih1]
      show (st.2 ++ [linkOf c]) ++ rest.map linkOf = _
      simp [List.append_assoc]
    · intro h
      exact ih2 (addConnection_nodup st c h)
    · intro i
      rw [ih3 i, addConnection_keys]
      simp only [List.mem_cons, exists_eq_or_imp]
      aesop
    · intro x hx
      rcases ih4 x hx with h1 | ⟨hg, hid⟩
      · rcases mem_addConnection_nodes st c x h1 with h2 | h2
        · exact Or.inl h2
        · exact Or.inr h2
      · right
        refine ⟨hg, fun hmem => hid ?_⟩
        rw [addConnection_keys]
        exact Or.inl hmem

/-- C7.  For a results object holding a match list and a connection list
whose strengths are non-zero (as every search result's are), the graph
projection emits exactly one node per unique identifier referenced by the
matches or by a connection endpoint (node ids are duplicate-free and their
set is exactly that union); endpoints absent from the matches carry the
lower-priority `"related"` group while matched names carry `"match"`; and
exactly one edge per connection is emitted, in order, carrying its strength
and direct/indirect classification. -/
theorem C7_graph_projection (ms : List MatchOut) (conns : List Connection)
    (hs : ∀ c ∈ conns, c.strength ≠ 0) :
    ((convertToNetworkData (some ⟨some ms, some conns⟩)).1.map Node.id).Nodup ∧
    (∀ i, i ∈ (convertToNetworkData (some ⟨some ms, some conns⟩)).1.map Node.id ↔
      i ∈ ms.map MatchOut.name ∨ ∃ c ∈ conns, i = c.academicA ∨ i = c.academicB) ∧
    (∀ n ∈ (convertToNetworkData (some ⟨some ms, some conns⟩)).1,
      n.id ∉ ms.map MatchOut.name → n.group = "related") ∧
    (∀ n ∈ (convertToNetworkData (some ⟨some ms, some conns⟩)).1,
      n.id ∈ ms.map MatchOut.name → n.group = "match") ∧
    (convertToNetworkData (some ⟨some ms, some conns⟩)).2
      = conns.map (fun c => ⟨c.academicA, c.academicB, c.strength,
          if c.isDirectlyConnected then "direct" else "indirect"⟩) := by
  have hconv : convertToNetworkData (some ⟨some ms, some conns⟩)
      = conns.foldl addConnection
          (ms.foldl (fun acc m => nodeSet acc (matchNode m)) [], []) := rfl
  obtain ⟨h1, h2, h3, h4⟩ :=
    connFold conns (ms.foldl (fun acc m => nodeSet acc (matchNode m)) [], [])
  have hkeys0 : ∀ i, i ∈ (ms.foldl (fun acc m => nodeSet acc (matchNode m)) []).map Node.id
      ↔ i ∈ ms.map MatchOut.name := by
    intro i
    rw [matchFold_keys ms [] i]
    simp
  refine ⟨?_, ?_, ?_, ?_, ?_⟩
  · rw [hconv]
    exact h2 (matchFold_nodup ms [] (by simp))
  · intro i
    rw [hconv, h3 i, hkeys0 i]
  · intro n hn hnames
    rw [hconv] at hn
    rcases h4 n hn with hmem | ⟨hg, _⟩
    · exact absurd ((hkeys0 n.id).mp (List.mem_map_of_mem Node.id hmem)) hnames
    · exact hg
  · intro n hn hnames
    rw [hconv] at hn
    rcases h4 n hn with hmem | ⟨_, hid⟩
    · rcases matchFold_group ms [] n hmem with hfalse | hg
      · exact absurd hfalse (List.not_mem_nil n)
      · exact hg
    · exact absurd ((hkeys0 n.id).mpr hnames) hid
  · rw [hconv, h1]
    simp only [List.nil_append]
    apply List.map_congr_left
    intro c hc
    simp [linkOf, hs c hc]

/-- C7 witness: the graph of the concrete search result has duplicate-free
node ids and one edge carrying strength 7. -/
theorem C7_witness :
    ((convertToNetworkData (some ⟨some testResult.matches_, some testResult.connections⟩)).1.map
      Node.id).Nodup ∧
    (convertToNetworkData (some ⟨some testResult.matches_, some testResult.connections⟩)).2
      = testResult.connections.map (fun c => ⟨c.academicA, c.academicB, c.strength,
          if c.isDirectlyConnected then "direct" else "indirect"⟩) := by
  have h := C7_graph_projection testResult.matches_ testResult.connections (by decide)
  exact ⟨h.1, h.2.2.2.2⟩

/-- C9.  A missing results object (JS `null`/`undefined`) or a results
object without a `connections` field yields the empty graph instead of
failing. -/
theorem C9_empty_graph :
    convertToNetworkData none = ([], []) ∧
    ∀ r : NetResults, r.connections = none → convertToNetworkData (some r) = ([], []) := by
  refine ⟨rfl, ?_⟩
  intro r h
  simp only [convertToNetworkData, h]

/-- C9 witness: a results object carrying matches but no `connections`
projects to the empty graph. -/
theorem C9_witness :
    convertToNetworkData (some ⟨some testResult.matches_, none⟩) = ([], []) :=
  C9_empty_graph.2 ⟨some testResult.matches_, none⟩ rfl

end KP
